import Mathlib

set_option maxRecDepth 100000

/-!
Shallow embedding of the settlement-demo repository's order-hash / Merkle /
settlement-state-machine core, with theorems checking the specification's
claims against it.

Byte strings are `List Nat`; keccak-256 is an external primitive, so every
function that calls it takes it as an explicit parameter `k : Bytes → Bytes`.
Source files embedded here:
  - src/lib/src/lib.rs (Order::hash, hash_pair, generate_merkle_root,
    build_tree_and_get_root, generate_proof)
  - src/contracts/solana/program/src/{lib.rs, merkle.rs, state.rs}
    (the list-based program, namespace `settlement_solana_program`)
  - src/contracts/solana/programs/bankai-solana/src/{lib.rs, merkle.rs,
    state.rs} (the per-order-account program, namespace `bankai_solana`)
-/

namespace Settlement

/-- Byte strings (Rust byte slices and arrays) as lists of naturals. -/
abbrev Bytes := List Nat

/-- The all-zero 32-byte value: `[0u8; 32]` / `FixedBytes::ZERO`. -/
def zero32 : Bytes := List.replicate 32 0

/-- Rust's lexicographic ordering `a <= b` on byte slices, used by the
sorted-pair rule in every `hash_pair` variant. -/
def bytesLe : Bytes → Bytes → Bool
  | [], _ => true
  | _ :: _, [] => false
  | a :: ta, b :: tb => if a < b then true else if b < a then false else bytesLe ta tb

/-- `hash_pair` (identical in lib/src/lib.rs and both Solana merkle.rs files):
keccak over the concatenation of the two nodes in sorted order, matching
OpenZeppelin's commutative keccak convention. -/
def hash_pair (k : Bytes → Bytes) (a b : Bytes) : Bytes :=
  if bytesLe a b then k (a ++ b) else k (b ++ a)

/-- `verify_merkle_proof_keccak` (contracts/solana/program/src/merkle.rs and
programs/bankai-solana/src/merkle.rs): fold the proof elements onto the leaf
with sorted-pair hashing and compare the result to the root. -/
def verify_merkle_proof_keccak (k : Bytes → Bytes) (leaf : Bytes)
    (proof : List Bytes) (root : Bytes) : Bool :=
  decide (List.foldl (hash_pair k) leaf proof = root)

/-- One iteration of the level loop shared by `build_tree_and_get_root`,
`generate_merkle_root` and `generate_proof` (lib/src/lib.rs): hash adjacent
pairs in order; an unmatched last node of an odd-length level is hashed with
itself. -/
def nextLevel (k : Bytes → Bytes) : List Bytes → List Bytes
  | [] => []
  | [a] => [hash_pair k a a]
  | a :: b :: rest => hash_pair k a b :: nextLevel k rest

theorem nextLevel_length (k : Bytes → Bytes) :
    ∀ hs : List Bytes, (nextLevel k hs).length = (hs.length + 1) / 2
  | [] => by simp [nextLevel]
  | [_] => by simp [nextLevel]
  | _ :: _ :: rest => by
      simp only [nextLevel, List.length_cons, nextLevel_length k rest]
      omega

/-- `build_tree_and_get_root` (lib/src/lib.rs): empty input gives the zero
root; otherwise the level loop runs until a single hash remains. -/
def build_tree_and_get_root (k : Bytes → Bytes) : List Bytes → Bytes
  | [] => zero32
  | [a] => a
  | a :: b :: rest => build_tree_and_get_root k (nextLevel k (a :: b :: rest))
termination_by hs => hs.length
decreasing_by simp [nextLevel_length]; omega

/-- The proof element `generate_proof` pushes at one level for the node at
position `idx`: the sibling inside a complete pair, or the node itself when
it is the unmatched last node of an odd-length level. -/
def siblingAt : List Bytes → Nat → List Bytes
  | [], _ => []
  | [a], 0 => [a]
  | [_], _ + 1 => []
  | _ :: b :: _, 0 => [b]
  | a :: _ :: _, 1 => [a]
  | _ :: _ :: rest, n + 2 => siblingAt rest n

/-- The level loop of `generate_proof` (lib/src/lib.rs): collect one sibling
per level while walking to the root, halving the index each level. -/
def generate_proof_loop (k : Bytes → Bytes) : List Bytes → Nat → List Bytes
  | [], _ => []
  | [_], _ => []
  | a :: b :: rest, idx =>
      siblingAt (a :: b :: rest) idx
        ++ generate_proof_loop k (nextLevel k (a :: b :: rest)) (idx / 2)
termination_by hs _ => hs.length
decreasing_by simp [nextLevel_length]; omega

/-- `generate_proof` (lib/src/lib.rs): empty input or out-of-range index
yields the empty proof, otherwise the level walk runs. -/
def generate_proof (k : Bytes → Bytes) (leaves : List Bytes) (index : Nat) : List Bytes :=
  if leaves = [] ∨ leaves.length ≤ index then [] else generate_proof_loop k leaves index

/-- The Order record, identical across lib/src/lib.rs (sol! struct) and both
Solana programs: u64 fields are naturals (bounded by 2^64 in the source
type), `receiver` the 20-byte address, `amount` the 32-byte big-endian
uint256. -/
structure Order where
  source_chain_id : Nat
  destination_chain_id : Nat
  receiver : Bytes
  amount : Bytes
  block_number : Nat
deriving DecidableEq

/-- Big-endian rendering of `n` in `w` bytes, as `to_be_bytes` produces. -/
def beBytes : Nat → Nat → Bytes
  | 0, _ => []
  | w + 1, n => beBytes w (n / 256) ++ [n % 256]

/-- A 32-byte word holding a u64: 24 zero bytes then the 8 big-endian value
bytes, exactly as both hand-rolled `order_hash_keccak` functions build it
(`word[24..].copy_from_slice(&x.to_be_bytes())`). -/
def u64word (n : Nat) : Bytes := List.replicate 24 0 ++ beBytes 8 n

/-- The address word: 12 zero bytes then the 20 receiver bytes
(`word[12..32].copy_from_slice(&order.receiver)`). -/
def addrWord (receiver : Bytes) : Bytes := List.replicate 12 0 ++ receiver

/-- The encoding buffer assembled by `order_hash_keccak`
(contracts/solana/program/src/lib.rs): the five 32-byte words concatenated in
field order, the amount copied as-is. -/
def order_encode (o : Order) : Bytes :=
  u64word o.source_chain_id ++ u64word o.destination_chain_id
    ++ addrWord o.receiver ++ o.amount ++ u64word o.block_number

/-- `order_hash_keccak` (contracts/solana/program/src/lib.rs): keccak over
the assembled buffer. -/
def order_hash_keccak (k : Bytes → Bytes) (o : Order) : Bytes := k (order_encode o)

/-- `order_hash_keccak` (programs/bankai-solana/src/lib.rs): the same five
words handed to `hashv`, which keccaks the concatenation of its slices. -/
def order_hash_keccak_bankai (k : Bytes → Bytes) (o : Order) : Bytes :=
  k (List.flatten [u64word o.source_chain_id, u64word o.destination_chain_id,
      addrWord o.receiver, o.amount, u64word o.block_number])

/-- Modelled from the spec: `Order::abi_encode` (lib/src/lib.rs) delegates to
the external alloy crate, whose code is not in this repository. Section 4.1
of the spec fixes the encoding this call produces for the all-static Order
tuple: each uint64 left-padded to a 32-byte big-endian word, the address
right-aligned in its word, the amount as-is, concatenated in
field-declaration order (160 bytes). -/
def abi_encode (o : Order) : Bytes :=
  beBytes 32 o.source_chain_id ++ beBytes 32 o.destination_chain_id
    ++ (List.replicate 12 0 ++ o.receiver) ++ o.amount ++ beBytes 32 o.block_number

/-- `Order::hash` (lib/src/lib.rs): keccak over the ABI encoding. -/
def Order.hash (k : Bytes → Bytes) (o : Order) : Bytes := k (abi_encode o)

/-- `generate_merkle_root` (lib/src/lib.rs): hash every order, then run the
same level loop as `build_tree_and_get_root` (the Rust duplicates the loop
body verbatim). -/
def generate_merkle_root (k : Bytes → Bytes) (orders : List Order) : Bytes :=
  if orders = [] then zero32
  else build_tree_and_get_root k (orders.map (Order.hash k))

/-- The error codes of both Solana programs' `SettlementError` enums (the
first four constructors, identical across the two), extended with the two
Anchor-framework failures the bankai program's account handling can raise:
`AccountAlreadyInUse` models the `init` constraint on `SubmitOrder` failing
because the order-status account already exists, and
`AccountDeserializeFailed` models `OrderStatus::try_deserialize` failing on
an account that was never initialized. -/
inductive SettlementError where
  | InvalidProof
  | InvalidPublicInputs
  | InvalidMerkleProof
  | InvalidOrderHash
  | AccountAlreadyInUse
  | AccountDeserializeFailed
deriving DecidableEq

/-- The `OrderProof` argument struct of both Solana programs' settle
instruction. -/
structure OrderProof where
  order : Order
  order_hash : Bytes
  proof : List Bytes
deriving DecidableEq

/-- The Solana runtime commits account writes only when the instruction
returns Ok; an Err return discards them and the pre-call state stays
observable. This function gives the observable post-call state of a
fallible instruction. -/
def committed {α : Type} (pre : α) : Except SettlementError α → α
  | Except.ok post => post
  | Except.error _ => pre

namespace settlement_solana_program

/-- `SettlementState` (contracts/solana/program/src/state.rs): the vkey hash
and the two append-only hash lists. -/
structure SettlementState where
  vkey_hash : Bytes
  orders_pending : List Bytes
  orders_settled : List Bytes
deriving DecidableEq

/-- `submit_order` (contracts/solana/program/src/lib.rs): hash the order and
push the hash onto `orders_pending`; no other check is made. -/
def submit_order (k : Bytes → Bytes) (s : SettlementState) (order : Order) :
    Except SettlementError SettlementState :=
  Except.ok { s with orders_pending := s.orders_pending ++ [order_hash_keccak k order] }

/-- The per-order loop of `settle_orders`
(contracts/solana/program/src/lib.rs): recompute the hash, require it to
match the claimed one, require the Merkle proof to fold to the root, then
push the hash onto `orders_settled`. -/
def settle_loop (k : Bytes → Bytes) (root : Bytes) :
    SettlementState → List OrderProof → Except SettlementError SettlementState
  | s, [] => Except.ok s
  | s, op :: rest =>
      let h := order_hash_keccak k op.order
      if h = op.order_hash then
        if verify_merkle_proof_keccak k h op.proof root then
          settle_loop k root { s with orders_settled := s.orders_settled ++ [h] } rest
        else Except.error SettlementError.InvalidMerkleProof
      else Except.error SettlementError.InvalidOrderHash

/-- `settle_orders` (contracts/solana/program/src/lib.rs): verify the SP1
Groth16 batch proof (external verifier `vp`, applied to the proof bytes, the
public inputs and the stored vkey hash), require the public inputs to reach
40 bytes, read the Merkle root from bytes 8..40, then run the per-order
loop. -/
def settle_orders (k : Bytes → Bytes) (vp : Bytes → Bytes → Bytes → Bool)
    (s : SettlementState) (sp1_public_inputs groth16_proof : Bytes)
    (order_proofs : List OrderProof) : Except SettlementError SettlementState :=
  if vp groth16_proof sp1_public_inputs s.vkey_hash then
    if 40 ≤ sp1_public_inputs.length then
      settle_loop k ((sp1_public_inputs.drop 8).take 32) s order_proofs
    else Except.error SettlementError.InvalidPublicInputs
  else Except.error SettlementError.InvalidProof

/-- `Vec::position`: index of the first element equal to `h`. -/
def position : List Bytes → Bytes → Option Nat
  | [], _ => none
  | x :: rest, h => if x = h then some 0 else (position rest h).map (· + 1)

/-- `Vec::swap_remove(pos)`: overwrite position `pos` with the last element,
then drop the last element. -/
def swapRemove (l : List Bytes) (pos : Nat) : List Bytes :=
  (l.set pos (l.getD (l.length - 1) zero32)).dropLast

/-- The body of `reset_orders` for one hash
(contracts/solana/program/src/lib.rs): if the hash occurs in
`orders_settled`, swap-remove its first occurrence; otherwise do nothing. -/
def reset_step (s : SettlementState) (h : Bytes) : SettlementState :=
  match position s.orders_settled h with
  | some pos => { s with orders_settled := swapRemove s.orders_settled pos }
  | none => s

/-- `reset_orders` (contracts/solana/program/src/lib.rs): fold the per-hash
step over the list; the instruction always returns Ok. -/
def reset_orders (s : SettlementState) (order_hashes : List Bytes) :
    Except SettlementError SettlementState :=
  Except.ok (order_hashes.foldl reset_step s)

end settlement_solana_program

namespace bankai_solana

/-- `OrderStatus` (programs/bankai-solana/src/state.rs): the per-order
account contents (the bump byte is account plumbing and elided). -/
structure OrderStatus where
  order_hash : Bytes
  settled : Bool
deriving DecidableEq

/-- The per-order account store: one entry per existing order-status PDA,
keyed by the order hash the PDA is derived from
(seeds `[b"order", order_hash]`). The Solana account model guarantees at
most one account per PDA, hence at most one entry per key. -/
abbrev OrderStore := List (Bytes × OrderStatus)

/-- Look up the order-status account for a hash. -/
def lookupRec : OrderStore → Bytes → Option OrderStatus
  | [], _ => none
  | (key, r) :: rest, h => if key = h then some r else lookupRec rest h

/-- Write `settled := true` into the account stored for hash `h`. -/
def setSettled : OrderStore → Bytes → OrderStore
  | [], _ => []
  | (key, r) :: rest, h =>
      if key = h then (key, { r with settled := true }) :: rest
      else (key, r) :: setSettled rest h

/-- Close the account stored for hash `h` (lamport reclamation elided). -/
def closeAccount : OrderStore → Bytes → OrderStore
  | [], _ => []
  | (key, r) :: rest, h => if key = h then rest else (key, r) :: closeAccount rest h

/-- `submit_order` (programs/bankai-solana/src/lib.rs) together with the
Anchor `init` constraint of its `SubmitOrder` accounts struct: creating the
order-status PDA fails when an account for that hash already exists; the
handler then recomputes the hash, requires it to equal the supplied one, and
records the new account with `settled := false`. -/
def submit_order (k : Bytes → Bytes) (store : OrderStore) (order : Order)
    (order_hash : Bytes) : Except SettlementError OrderStore :=
  match lookupRec store order_hash with
  | some _ => Except.error SettlementError.AccountAlreadyInUse
  | none =>
      let computed := order_hash_keccak_bankai k order
      if computed = order_hash then
        Except.ok (store ++ [(order_hash, { order_hash := computed, settled := false })])
      else Except.error SettlementError.InvalidOrderHash

/-- The per-order loop of `settle_orders`
(programs/bankai-solana/src/lib.rs): recompute the hash, require it to match
the claimed one, require the Merkle proof to fold to the root, deserialize
the order-status account for the hash (failing when it was never created),
require its stored hash to match, and set `settled := true`. -/
def settle_loop (k : Bytes → Bytes) (root : Bytes) :
    OrderStore → List OrderProof → Except SettlementError OrderStore
  | store, [] => Except.ok store
  | store, op :: rest =>
      let h := order_hash_keccak_bankai k op.order
      if h = op.order_hash then
        if verify_merkle_proof_keccak k h op.proof root then
          match lookupRec store h with
          | none => Except.error SettlementError.AccountDeserializeFailed
          | some r =>
              if r.order_hash = h then settle_loop k root (setSettled store h) rest
              else Except.error SettlementError.InvalidOrderHash
        else Except.error SettlementError.InvalidMerkleProof
      else Except.error SettlementError.InvalidOrderHash

/-- `settle_orders` (programs/bankai-solana/src/lib.rs): verify the batch
proof against the fixed vkey hash, require the public inputs to reach 32
bytes, read the Merkle root from bytes 0..32, then run the per-order
loop. -/
def settle_orders (k : Bytes → Bytes) (vp : Bytes → Bytes → Bytes → Bool)
    (vkey : Bytes) (store : OrderStore) (sp1_public_inputs groth16_proof : Bytes)
    (order_proofs : List OrderProof) : Except SettlementError OrderStore :=
  if vp groth16_proof sp1_public_inputs vkey then
    if 32 ≤ sp1_public_inputs.length then
      settle_loop k (sp1_public_inputs.take 32) store order_proofs
    else Except.error SettlementError.InvalidPublicInputs
  else Except.error SettlementError.InvalidProof

/-- The body of `reset_orders` for one hash
(programs/bankai-solana/src/lib.rs): when an order-status account exists for
the hash, require its stored hash to match, then close the account; when
none exists (the account data deserializes to nothing), skip the validation
and close a hashless slot, which changes nothing. -/
def reset_step (store : OrderStore) (h : Bytes) : Except SettlementError OrderStore :=
  match lookupRec store h with
  | none => Except.ok store
  | some r =>
      if r.order_hash = h then Except.ok (closeAccount store h)
      else Except.error SettlementError.InvalidOrderHash

/-- `reset_orders` (programs/bankai-solana/src/lib.rs): process the hashes in
order, stopping on the first validation failure. -/
def reset_orders : OrderStore → List Bytes → Except SettlementError OrderStore
  | store, [] => Except.ok store
  | store, h :: rest =>
      match reset_step store h with
      | Except.ok store2 => reset_orders store2 rest
      | Except.error e => Except.error e

end bankai_solana

/-! Helper lemmas about the sorted-pair ordering and the level loop. -/

theorem bytesLe_antisymm : ∀ a b : Bytes, bytesLe a b = true → bytesLe b a = true → a = b
  | [], [], _, _ => rfl
  | [], _ :: _, _, h2 => by simp [bytesLe] at h2
  | _ :: _, [], h1, _ => by simp [bytesLe] at h1
  | a :: ta, b :: tb, h1, h2 => by
      simp only [bytesLe] at h1 h2
      rcases Nat.lt_trichotomy a b with hab | hab | hab
      · rw [if_neg (Nat.lt_asymm hab), if_pos hab] at h2
        exact absurd h2 (by simp)
      · subst hab
        rw [if_neg (Nat.lt_irrefl a), if_neg (Nat.lt_irrefl a)] at h1 h2
        rw [bytesLe_antisymm ta tb h1 h2]
      · rw [if_neg (Nat.lt_asymm hab), if_pos hab] at h1
        exact absurd h1 (by simp)

theorem bytesLe_total : ∀ a b : Bytes, bytesLe a b = true ∨ bytesLe b a = true
  | [], _ => Or.inl rfl
  | _ :: _, [] => Or.inr rfl
  | a :: ta, b :: tb => by
      simp only [bytesLe]
      rcases Nat.lt_trichotomy a b with hab | hab | hab
      · exact Or.inl (by rw [if_pos hab])
      · subst hab
        simp only [if_neg (Nat.lt_irrefl a)]
        exact bytesLe_total ta tb
      · exact Or.inr (by rw [if_pos hab])

/-- Sorted-pair hashing is commutative, so the verifier's fold needs no
left/right position information. -/
theorem hash_pair_comm (k : Bytes → Bytes) (a b : Bytes) :
    hash_pair k a b = hash_pair k b a := by
  unfold hash_pair
  cases hab : bytesLe a b with
  | false =>
      cases hba : bytesLe b a with
      | false => rcases bytesLe_total a b with h | h <;> simp_all
      | true => simp
  | true =>
      cases hba : bytesLe b a with
      | false => simp
      | true =>
          have hEq := bytesLe_antisymm a b hab hba
          subst hEq
          simp

/-- One level of the proof walk folds the collected sibling onto the node at
`idx` and lands exactly on the parent node of the next level. -/
theorem foldl_siblingAt (k : Bytes → Bytes) :
    ∀ (hs : List Bytes) (idx : Nat), idx < hs.length →
      List.foldl (hash_pair k) (hs.getD idx zero32) (siblingAt hs idx)
        = (nextLevel k hs).getD (idx / 2) zero32
  | [], _, h => absurd h (by simp)
  | [_], 0, _ => by simp [siblingAt, nextLevel]
  | [_], _ + 1, h => by simp at h
  | _ :: _ :: _, 0, _ => by simp [siblingAt, nextLevel]
  | a :: b :: _, 1, _ => by
      rw [show (1 : Nat) / 2 = 0 from rfl]
      simp [siblingAt, nextLevel, hash_pair_comm k b a]
  | _ :: _ :: rest, n + 2, h => by
      have ih := foldl_siblingAt k rest n (by simp at h; omega)
      rw [show (n + 2) / 2 = n / 2 + 1 by omega]
      simpa [siblingAt, nextLevel] using ih

/-- Folding the whole generated proof onto the leaf at `idx` reproduces the
root the level loop computes. -/
theorem generate_proof_loop_foldl (k : Bytes → Bytes) :
    ∀ (hs : List Bytes) (idx : Nat), idx < hs.length →
      List.foldl (hash_pair k) (hs.getD idx zero32) (generate_proof_loop k hs idx)
        = build_tree_and_get_root k hs
  | [], _, h => absurd h (by simp)
  | [_], 0, _ => by simp [generate_proof_loop, build_tree_and_get_root]
  | [_], _ + 1, h => by simp at h
  | a :: b :: rest, idx, h => by
      have hlen : idx / 2 < (nextLevel k (a :: b :: rest)).length := by
        rw [nextLevel_length]
        simp only [List.length_cons] at h ⊢
        omega
      have ih := generate_proof_loop_foldl k (nextLevel k (a :: b :: rest)) (idx / 2) hlen
      rw [show generate_proof_loop k (a :: b :: rest) idx
            = siblingAt (a :: b :: rest) idx
              ++ generate_proof_loop k (nextLevel k (a :: b :: rest)) (idx / 2)
          from by simp [generate_proof_loop],
        List.foldl_append, foldl_siblingAt k _ idx h, ih,
        show build_tree_and_get_root k (a :: b :: rest)
            = build_tree_and_get_root k (nextLevel k (a :: b :: rest))
          from by simp [build_tree_and_get_root]]
termination_by hs _ _ => hs.length
decreasing_by simp [nextLevel_length]; omega

/-- Claim C1: for every non-empty sequence of leaf hashes and every index
`i < length`, verifying the proof produced by `generate_proof` for leaf `i`
against the root produced by `build_tree_and_get_root`, by folding with
sorted-pair keccak hashing (`verify_merkle_proof_keccak`), returns true. -/
theorem merkle_round_trip (k : Bytes → Bytes) (leaves : List Bytes) (i : Nat)
    (hne : leaves ≠ []) (hi : i < leaves.length) :
    verify_merkle_proof_keccak k (leaves.getD i zero32) (generate_proof k leaves i)
      (build_tree_and_get_root k leaves) = true := by
  unfold generate_proof
  rw [if_neg (by push_neg; exact ⟨hne, hi⟩)]
  unfold verify_merkle_proof_keccak
  rw [generate_proof_loop_foldl k leaves i hi]
  simp

theorem merkle_round_trip_witness :
    verify_merkle_proof_keccak (fun l => [l.length])
        (([[1], [2], [3]] : List Bytes).getD 1 zero32)
        (generate_proof (fun l => [l.length]) [[1], [2], [3]] 1)
        (build_tree_and_get_root (fun l => [l.length]) [[1], [2], [3]]) = true :=
  merkle_round_trip (fun l => [l.length]) [[1], [2], [3]] 1 (by decide) (by decide)

/-- Claim C9: the root of a 3-leaf batch pairs the unmatched third leaf with
itself: `generate_merkle_root` over three orders equals
`hash_pair (hash_pair a b) (hash_pair c c)` for their leaf hashes, and the
same holds of `build_tree_and_get_root` on any three raw leaves. -/
theorem odd_leaf_self_pairing (k : Bytes → Bytes) (o1 o2 o3 : Order) (a b c : Bytes) :
    generate_merkle_root k [o1, o2, o3]
        = hash_pair k (hash_pair k (Order.hash k o1) (Order.hash k o2))
            (hash_pair k (Order.hash k o3) (Order.hash k o3))
      ∧ build_tree_and_get_root k [a, b, c]
        = hash_pair k (hash_pair k a b) (hash_pair k c c) := by
  constructor
  · simp [generate_merkle_root, build_tree_and_get_root, nextLevel]
  · simp [build_tree_and_get_root, nextLevel]

/-- Claim C10: with an empty sibling list the verifier accepts exactly when
the leaf and the root coincide; in particular any value presented as both
leaf and root is accepted with an empty proof. -/
theorem verify_empty_proof (k : Bytes → Bytes) (leaf root : Bytes) :
    (verify_merkle_proof_keccak k leaf [] root = true ↔ leaf = root)
      ∧ verify_merkle_proof_keccak k leaf [] leaf = true := by
  constructor
  · simp [verify_merkle_proof_keccak]
  · simp [verify_merkle_proof_keccak]

/-! Lemmas about the big-endian byte encodings behind the order hash. -/

theorem beBytes_length : ∀ w n : Nat, (beBytes w n).length = w
  | 0, _ => rfl
  | w + 1, n => by simp [beBytes, beBytes_length w]

theorem beBytes_zero : ∀ w : Nat, beBytes w 0 = List.replicate w 0
  | 0 => rfl
  | w + 1 => by
      rw [beBytes, Nat.zero_div, Nat.zero_mod, beBytes_zero w, ← List.replicate_succ']

theorem beBytes_split : ∀ (j w n : Nat), n < 256 ^ w →
    beBytes (j + w) n = List.replicate j 0 ++ beBytes w n
  | j, 0, n, h => by
      have hn : n = 0 := by omega
      subst hn
      simp [beBytes_zero]
  | j, w + 1, n, h => by
      have hdiv : n / 256 < 256 ^ w := by
        rw [Nat.div_lt_iff_lt_mul (by norm_num : (0 : Nat) < 256), ← pow_succ]
        exact h
      have hstep : j + (w + 1) = (j + w) + 1 := by omega
      rw [hstep]
      show beBytes (j + w) (n / 256) ++ [n % 256]
          = List.replicate j 0 ++ (beBytes w (n / 256) ++ [n % 256])
      rw [beBytes_split j w (n / 256) hdiv, List.append_assoc]

/-- The 24-zeros-then-8-value-bytes word the Rust writes for a u64 equals the
full 32-byte big-endian word of the spec's encoding, for any in-range u64. -/
theorem u64word_eq_beBytes32 (n : Nat) (h : n < 2 ^ 64) : u64word n = beBytes 32 n := by
  have h256 : n < 256 ^ 8 := by
    have hp : (256 : Nat) ^ 8 = 2 ^ 64 := by norm_num
    rw [hp]
    exact h
  unfold u64word
  rw [← beBytes_split 24 8 n h256]

/-- Claim C2: for every Order with a 20-byte receiver, a 32-byte amount and
in-range u64 scalar fields, the three order-hash implementations agree:
`Order::hash` via the section-4.1 ABI encoding and the two hand-rolled
`order_hash_keccak` functions produce the same digest, keccak of the same
160-byte canonical encoding. -/
theorem order_hash_agreement (k : Bytes → Bytes) (o : Order)
    (hrecv : o.receiver.length = 20) (hamt : o.amount.length = 32)
    (hsrc : o.source_chain_id < 2 ^ 64) (hdst : o.destination_chain_id < 2 ^ 64)
    (hblk : o.block_number < 2 ^ 64) :
    Order.hash k o = order_hash_keccak k o
      ∧ order_hash_keccak k o = order_hash_keccak_bankai k o
      ∧ Order.hash k o = k (abi_encode o)
      ∧ (abi_encode o).length = 160 := by
  have henc : abi_encode o = order_encode o := by
    unfold abi_encode order_encode addrWord
    rw [u64word_eq_beBytes32 _ hsrc, u64word_eq_beBytes32 _ hdst, u64word_eq_beBytes32 _ hblk]
  have hflat : order_encode o
      = List.flatten [u64word o.source_chain_id, u64word o.destination_chain_id,
          addrWord o.receiver, o.amount, u64word o.block_number] := by
    simp [order_encode]
  refine ⟨?_, ?_, rfl, ?_⟩
  · unfold Order.hash order_hash_keccak
    rw [henc]
  · unfold order_hash_keccak order_hash_keccak_bankai
    rw [hflat]
  · simp [abi_encode, beBytes_length, hrecv, hamt]

theorem order_hash_agreement_witness :
    Order.hash (fun l => [l.length])
        { source_chain_id := 1, destination_chain_id := 2,
          receiver := List.replicate 20 3, amount := List.replicate 32 4, block_number := 5 }
      = order_hash_keccak (fun l => [l.length])
        { source_chain_id := 1, destination_chain_id := 2,
          receiver := List.replicate 20 3, amount := List.replicate 32 4, block_number := 5 }
      ∧ order_hash_keccak (fun l => [l.length])
        { source_chain_id := 1, destination_chain_id := 2,
          receiver := List.replicate 20 3, amount := List.replicate 32 4, block_number := 5 }
      = order_hash_keccak_bankai (fun l => [l.length])
        { source_chain_id := 1, destination_chain_id := 2,
          receiver := List.replicate 20 3, amount := List.replicate 32 4, block_number := 5 }
      ∧ Order.hash (fun l => [l.length])
        { source_chain_id := 1, destination_chain_id := 2,
          receiver := List.replicate 20 3, amount := List.replicate 32 4, block_number := 5 }
      = (fun l => [l.length]) (abi_encode
          { source_chain_id := 1, destination_chain_id := 2,
            receiver := List.replicate 20 3, amount := List.replicate 32 4, block_number := 5 })
      ∧ (abi_encode
          { source_chain_id := 1, destination_chain_id := 2,
            receiver := List.replicate 20 3, amount := List.replicate 32 4,
            block_number := 5 }).length = 160 :=
  order_hash_agreement (fun l => [l.length])
    { source_chain_id := 1, destination_chain_id := 2,
      receiver := List.replicate 20 3, amount := List.replicate 32 4, block_number := 5 }
    (by decide) (by decide) (by decide) (by decide) (by decide)

/-! Concrete fixtures used by the state-machine counterexamples and
witnesses. Nothing below depends on cryptographic properties of keccak, so a
toy function serves. -/

/-- Toy keccak stand-in: 31 zero bytes followed by the input length. -/
def kTest : Bytes → Bytes := fun l => List.replicate 31 0 ++ [l.length % 256]

/-- An external batch-proof verifier accepting everything, to exercise the
code behind the verification gate. -/
def vpTrue : Bytes → Bytes → Bytes → Bool := fun _ _ _ => true

def oTest : Order :=
  { source_chain_id := 1, destination_chain_id := 2,
    receiver := List.replicate 20 3, amount := List.replicate 32 4, block_number := 5 }

def hTest : Bytes := order_hash_keccak kTest oTest

/-- A valid single-leaf order proof: the empty sibling list verifies exactly
against the root equal to the leaf hash. -/
def opTest : OrderProof := { order := oTest, order_hash := hTest, proof := [] }

/-- An order proof with a wrong claimed hash. -/
def opBad : OrderProof := { order := oTest, order_hash := [], proof := [] }

/-- Public inputs carrying `hTest` at bytes 8..40 (list-based program). -/
def pubTest : Bytes := List.replicate 8 0 ++ hTest

/-- Public inputs carrying `hTest` at bytes 0..32 (bankai program). -/
def pubTestB : Bytes := hTest

/-- Claim C3 counterexample: in the list-based program an order with no
Pending record settles anyway. Starting from a state with empty
`orders_pending` (the order was never submitted), `settle_orders` on a valid
proof returns Ok — no UnknownOrder failure exists — and the order's hash is
appended to `orders_settled`. -/
theorem settle_unknown_order_counterexample :
    settlement_solana_program.settle_orders kTest vpTrue
        { vkey_hash := [], orders_pending := [], orders_settled := [] }
        pubTest [] [opTest]
      = Except.ok { vkey_hash := [], orders_pending := [], orders_settled := [hTest] } := by
  rfl

/-- Claim C3 (amended): neither program looks up a Pending record during
settlement. The list-based `settle_orders` settles any order proof passing
the hash and Merkle checks regardless of `orders_pending`, appending its
hash to `orders_settled`; the bankai program fails on a never-submitted
order only because its order-status account cannot be deserialized — an
account error, not an UnknownOrder error, which exists in neither program. -/
theorem settle_no_pending_lookup (k : Bytes → Bytes) (vp : Bytes → Bytes → Bytes → Bool)
    (vkey : Bytes) (s : settlement_solana_program.SettlementState)
    (store : bankai_solana.OrderStore) (pub1 pub2 proof : Bytes) (op : OrderProof)
    (hvp1 : vp proof pub1 s.vkey_hash = true) (hvp2 : vp proof pub2 vkey = true)
    (hlen1 : 40 ≤ pub1.length) (hlen2 : 32 ≤ pub2.length)
    (hh1 : order_hash_keccak k op.order = op.order_hash)
    (hh2 : order_hash_keccak_bankai k op.order = op.order_hash)
    (hm1 : verify_merkle_proof_keccak k op.order_hash op.proof ((pub1.drop 8).take 32) = true)
    (hm2 : verify_merkle_proof_keccak k op.order_hash op.proof (pub2.take 32) = true)
    (habsent : bankai_solana.lookupRec store op.order_hash = none) :
    settlement_solana_program.settle_orders k vp s pub1 proof [op]
        = Except.ok { s with orders_settled := s.orders_settled ++ [op.order_hash] }
      ∧ bankai_solana.settle_orders k vp vkey store pub2 proof [op]
        = Except.error SettlementError.AccountDeserializeFailed := by
  constructor
  · unfold settlement_solana_program.settle_orders
    rw [hvp1, if_pos rfl, if_pos hlen1]
    unfold settlement_solana_program.settle_loop
    rw [hh1, if_pos rfl, if_pos hm1]
    rfl
  · unfold bankai_solana.settle_orders
    rw [hvp2, if_pos rfl, if_pos hlen2]
    unfold bankai_solana.settle_loop
    rw [hh2, if_pos rfl, if_pos hm2, habsent]

theorem settle_no_pending_lookup_witness :
    settlement_solana_program.settle_orders kTest vpTrue
        { vkey_hash := [], orders_pending := [], orders_settled := [] } pubTest [] [opTest]
      = Except.ok { vkey_hash := [], orders_pending := [],
                    orders_settled := [] ++ [opTest.order_hash] }
    ∧ bankai_solana.settle_orders kTest vpTrue [] [] pubTestB [] [opTest]
      = Except.error SettlementError.AccountDeserializeFailed :=
  settle_no_pending_lookup kTest vpTrue []
    { vkey_hash := [], orders_pending := [], orders_settled := [] } [] pubTest pubTestB [] opTest
    rfl rfl (by decide) (by decide) rfl rfl (by decide) (by decide) rfl

/-! Lemmas for the bankai program's settlement idempotence: `setSettled`
preserves keys and stored hashes, only ever turns `settled` on, and is a
fixed point on an already-settled record. -/

theorem lookupRec_setSettled_ne :
    ∀ (store : bankai_solana.OrderStore) (h h2 : Bytes), h2 ≠ h →
      bankai_solana.lookupRec (bankai_solana.setSettled store h2) h
        = bankai_solana.lookupRec store h
  | [], _, _, _ => rfl
  | (key, r) :: rest, h, h2, hne => by
      by_cases hk : key = h2
      · subst hk
        simp [bankai_solana.setSettled, bankai_solana.lookupRec, hne]
      · simp [bankai_solana.setSettled, bankai_solana.lookupRec, hk,
          lookupRec_setSettled_ne rest h h2 hne]

theorem lookupRec_setSettled_eq :
    ∀ (store : bankai_solana.OrderStore) (h : Bytes),
      bankai_solana.lookupRec (bankai_solana.setSettled store h) h
        = (bankai_solana.lookupRec store h).map
            (fun r => { order_hash := r.order_hash, settled := true })
  | [], _ => rfl
  | (key, r) :: rest, h => by
      by_cases hk : key = h
      · subst hk
        simp [bankai_solana.setSettled, bankai_solana.lookupRec]
      · simp [bankai_solana.setSettled, bankai_solana.lookupRec, hk,
          lookupRec_setSettled_eq rest h]

theorem setSettled_fixed :
    ∀ (store : bankai_solana.OrderStore) (h : Bytes) (r : bankai_solana.OrderStatus),
      bankai_solana.lookupRec store h = some r → r.settled = true →
      bankai_solana.setSettled store h = store
  | [], _, _, hlk, _ => by simp [bankai_solana.lookupRec] at hlk
  | (key, r0) :: rest, h, r, hlk, hs => by
      by_cases hk : key = h
      · subst hk
        have hr0 : r0 = r := by simpa [bankai_solana.lookupRec] using hlk
        subst hr0
        cases r0 with
        | mk oh st =>
            have hst : st = true := hs
            subst hst
            simp [bankai_solana.setSettled]
      · simp only [bankai_solana.lookupRec, if_neg hk] at hlk
        simp [bankai_solana.setSettled, hk, setSettled_fixed rest h r hlk hs]

/-- A settle pass never turns a settled record off and never changes a
stored hash: any record already `(oh, settled)` stays exactly that. -/
theorem settle_loop_preserves_settled (k : Bytes → Bytes) (root : Bytes) :
    ∀ (ops : List OrderProof) (store store2 : bankai_solana.OrderStore) (h oh : Bytes),
      bankai_solana.settle_loop k root store ops = Except.ok store2 →
      bankai_solana.lookupRec store h = some { order_hash := oh, settled := true } →
      bankai_solana.lookupRec store2 h = some { order_hash := oh, settled := true }
  | [], store, store2, h, oh, hrun, hlk => by
      simp only [bankai_solana.settle_loop, Except.ok.injEq] at hrun
      subst hrun
      exact hlk
  | op :: rest, store, store2, h, oh, hrun, hlk => by
      simp only [bankai_solana.settle_loop] at hrun
      split at hrun
      case isFalse => exact absurd hrun (by simp)
      case isTrue hh =>
        split at hrun
        case isFalse => exact absurd hrun (by simp)
        case isTrue hm =>
          split at hrun
          case h_1 => exact absurd hrun (by simp)
          case h_2 r hr =>
            split at hrun
            case isFalse => exact absurd hrun (by simp)
            case isTrue hrh =>
              refine settle_loop_preserves_settled k root rest _ store2 h oh hrun ?_
              by_cases hcase : order_hash_keccak_bankai k op.order = h
              · rw [hcase, lookupRec_setSettled_eq, hlk]
                rfl
              · rw [lookupRec_setSettled_ne store h _ hcase, hlk]

/-- Replaying a successful settle pass from its own output store is a
no-op returning the same store. -/
theorem settle_loop_idempotent (k : Bytes → Bytes) (root : Bytes) :
    ∀ (ops : List OrderProof) (store store2 : bankai_solana.OrderStore),
      bankai_solana.settle_loop k root store ops = Except.ok store2 →
      bankai_solana.settle_loop k root store2 ops = Except.ok store2
  | [], store, store2, hrun => by
      simp only [bankai_solana.settle_loop, Except.ok.injEq] at hrun
      subst hrun
      rfl
  | op :: rest, store, store2, hrun => by
      simp only [bankai_solana.settle_loop] at hrun ⊢
      split at hrun
      case isFalse => exact absurd hrun (by simp)
      case isTrue hh =>
        split at hrun
        case isFalse => exact absurd hrun (by simp)
        case isTrue hm =>
          split at hrun
          case h_1 => exact absurd hrun (by simp)
          case h_2 r hr =>
            split at hrun
            case isFalse => exact absurd hrun (by simp)
            case isTrue hrh =>
              have hset : bankai_solana.lookupRec
                  (bankai_solana.setSettled store (order_hash_keccak_bankai k op.order))
                  (order_hash_keccak_bankai k op.order)
                  = some { order_hash := order_hash_keccak_bankai k op.order,
                           settled := true } := by
                rw [lookupRec_setSettled_eq, hr]
                simp [hrh]
              have hlk2 := settle_loop_preserves_settled k root rest _ store2 _ _ hrun hset
              rw [if_pos hh, if_pos hm, hlk2]
              simp only [setSettled_fixed store2 _ _ hlk2 rfl]
              simpa using settle_loop_idempotent k root rest _ store2 hrun

/-- Claim C4 counterexample: in the list-based program settlement is not
idempotent. Settling the same valid order proof a second time neither
no-ops nor rejects: it succeeds and appends a second settled record for the
same hash, so the state after the second call differs from the state after
the first. -/
theorem settle_idempotence_counterexample :
    settlement_solana_program.settle_orders kTest vpTrue
        { vkey_hash := [], orders_pending := [hTest], orders_settled := [] }
        pubTest [] [opTest]
      = Except.ok { vkey_hash := [], orders_pending := [hTest], orders_settled := [hTest] }
    ∧ settlement_solana_program.settle_orders kTest vpTrue
        { vkey_hash := [], orders_pending := [hTest], orders_settled := [hTest] }
        pubTest [] [opTest]
      = Except.ok { vkey_hash := [], orders_pending := [hTest],
                    orders_settled := [hTest, hTest] }
    ∧ ({ vkey_hash := [], orders_pending := [hTest], orders_settled := [hTest, hTest] }
          : settlement_solana_program.SettlementState)
        ≠ { vkey_hash := [], orders_pending := [hTest], orders_settled := [hTest] } := by
  refine ⟨rfl, rfl, ?_⟩
  decide

/-- Claim C4 (amended): settlement idempotence holds in the bankai program
but not in the list-based one. Re-running a successful bankai
`settle_orders` call on its own output store returns that store unchanged
(each order's record is merely set `settled := true` again); the list-based
program instead appends a duplicate settled record, as the counterexample
shows. -/
theorem settle_orders_idempotent_bankai (k : Bytes → Bytes)
    (vp : Bytes → Bytes → Bytes → Bool) (vkey : Bytes)
    (store store2 : bankai_solana.OrderStore) (pub proof : Bytes)
    (ops : List OrderProof)
    (hrun : bankai_solana.settle_orders k vp vkey store pub proof ops = Except.ok store2) :
    bankai_solana.settle_orders k vp vkey store2 pub proof ops = Except.ok store2 := by
  unfold bankai_solana.settle_orders at hrun ⊢
  by_cases h1 : vp proof pub vkey = true
  · rw [h1, if_pos rfl] at hrun ⊢
    by_cases h2 : 32 ≤ pub.length
    · rw [if_pos h2] at hrun ⊢
      exact settle_loop_idempotent k (pub.take 32) ops store store2 hrun
    · rw [if_neg h2] at hrun
      exact absurd hrun (by simp)
  · rw [Bool.not_eq_true] at h1
    rw [h1] at hrun
    exact absurd hrun (by simp)

theorem settle_orders_idempotent_bankai_witness :
    bankai_solana.settle_orders kTest vpTrue []
        [(hTest, { order_hash := hTest, settled := true })] pubTestB [] [opTest]
      = Except.ok [(hTest, { order_hash := hTest, settled := true })] :=
  settle_orders_idempotent_bankai kTest vpTrue []
    [(hTest, { order_hash := hTest, settled := false })]
    [(hTest, { order_hash := hTest, settled := true })] pubTestB [] [opTest] rfl

/-- Claim C5 counterexample: the list-based program's `submit_order` makes
no duplicate check. With the order's hash already recorded in
`orders_pending`, a second submit is not rejected: it succeeds and appends
the hash again, changing the state. -/
theorem submit_duplicate_counterexample :
    settlement_solana_program.submit_order kTest
        { vkey_hash := [], orders_pending := [hTest], orders_settled := [] } oTest
      = Except.ok { vkey_hash := [], orders_pending := [hTest, hTest],
                    orders_settled := [] }
    ∧ ({ vkey_hash := [], orders_pending := [hTest, hTest], orders_settled := [] }
          : settlement_solana_program.SettlementState)
        ≠ { vkey_hash := [], orders_pending := [hTest], orders_settled := [] } := by
  refine ⟨rfl, ?_⟩
  decide

/-- Claim C5 (amended): only the bankai program rejects resubmission, and it
does so through the Anchor account-init constraint — creating the
order-status account for an already-recorded hash fails with the
account-already-in-use error, not a DuplicateSubmission code (which exists
in neither program) — leaving the state unchanged. The list-based program
performs no duplicate check at all and appends the hash to `orders_pending`
again, as the counterexample shows. -/
theorem submit_duplicate_rejected_bankai (k : Bytes → Bytes)
    (store : bankai_solana.OrderStore) (order : Order) (oh : Bytes)
    (r : bankai_solana.OrderStatus)
    (hdup : bankai_solana.lookupRec store oh = some r) :
    bankai_solana.submit_order k store order oh
        = Except.error SettlementError.AccountAlreadyInUse
      ∧ committed store (bankai_solana.submit_order k store order oh) = store := by
  unfold bankai_solana.submit_order
  rw [hdup]
  exact ⟨rfl, rfl⟩

theorem submit_duplicate_rejected_bankai_witness :
    bankai_solana.submit_order kTest [(hTest, { order_hash := hTest, settled := false })]
        oTest hTest
        = Except.error SettlementError.AccountAlreadyInUse
      ∧ committed [(hTest, { order_hash := hTest, settled := false })]
          (bankai_solana.submit_order kTest
            [(hTest, { order_hash := hTest, settled := false })] oTest hTest)
        = [(hTest, { order_hash := hTest, settled := false })] :=
  submit_duplicate_rejected_bankai kTest
    [(hTest, { order_hash := hTest, settled := false })] oTest hTest
    { order_hash := hTest, settled := false } rfl

/-- Claim C6: a `settle_orders` call that returns an error leaves the
observable settlement state as it was before the call — including when
orders earlier in the batch passed their individual checks — because the
host runtime commits account writes only on an Ok return (`committed`). In
the list variant the observable `orders_settled` list is unchanged. -/
theorem settle_orders_atomic (k : Bytes → Bytes) (vp : Bytes → Bytes → Bytes → Bool)
    (vkey : Bytes) (s : settlement_solana_program.SettlementState)
    (store : bankai_solana.OrderStore) (pub proof : Bytes) (ops : List OrderProof) :
    (∀ e : SettlementError,
        settlement_solana_program.settle_orders k vp s pub proof ops = Except.error e →
        committed s (settlement_solana_program.settle_orders k vp s pub proof ops) = s
          ∧ (committed s
              (settlement_solana_program.settle_orders k vp s pub proof ops)).orders_settled
            = s.orders_settled)
      ∧ (∀ e : SettlementError,
          bankai_solana.settle_orders k vp vkey store pub proof ops = Except.error e →
          committed store (bankai_solana.settle_orders k vp vkey store pub proof ops)
            = store) := by
  constructor
  · intro e he
    rw [he]
    exact ⟨rfl, rfl⟩
  · intro e he
    rw [he]
    rfl

theorem settle_orders_atomic_witness :
    committed { vkey_hash := [], orders_pending := [], orders_settled := [] }
        (settlement_solana_program.settle_orders kTest vpTrue
          { vkey_hash := [], orders_pending := [], orders_settled := [] }
          pubTest [] [opTest, opBad])
      = { vkey_hash := [], orders_pending := [], orders_settled := [] }
    ∧ committed ([] : bankai_solana.OrderStore)
        (bankai_solana.settle_orders kTest vpTrue [] [] pubTestB [] [opTest])
      = ([] : bankai_solana.OrderStore) :=
  ⟨((settle_orders_atomic kTest vpTrue []
        { vkey_hash := [], orders_pending := [], orders_settled := [] }
        [] pubTest [] [opTest, opBad]).1 SettlementError.InvalidOrderHash rfl).1,
    (settle_orders_atomic kTest vpTrue []
        { vkey_hash := [], orders_pending := [], orders_settled := [] }
        [] pubTestB [] [opTest]).2 SettlementError.AccountDeserializeFailed rfl⟩

/-- Claim C7: once the batch proof verifies, a public-output buffer shorter
than offset + 32 (offset 8 in the list-based program, offset 0 in the
bankai program) makes `settle_orders` fail with InvalidPublicInputs with the
observable state unchanged, and a buffer of length at least offset + 32
passes the length check, proceeding to the per-order loop with the root
read from bytes [offset, offset + 32). -/
theorem settle_public_input_length (k : Bytes → Bytes) (vp : Bytes → Bytes → Bytes → Bool)
    (vkey : Bytes) (s : settlement_solana_program.SettlementState)
    (store : bankai_solana.OrderStore) (pub proof : Bytes) (ops : List OrderProof)
    (hvp1 : vp proof pub s.vkey_hash = true) (hvp2 : vp proof pub vkey = true) :
    (settlement_solana_program.settle_orders k vp s pub proof ops
        = if 40 ≤ pub.length
          then settlement_solana_program.settle_loop k ((pub.drop 8).take 32) s ops
          else Except.error SettlementError.InvalidPublicInputs)
      ∧ (pub.length < 40 →
          committed s (settlement_solana_program.settle_orders k vp s pub proof ops) = s)
      ∧ (bankai_solana.settle_orders k vp vkey store pub proof ops
        = if 32 ≤ pub.length
          then bankai_solana.settle_loop k (pub.take 32) store ops
          else Except.error SettlementError.InvalidPublicInputs)
      ∧ (pub.length < 32 →
          committed store (bankai_solana.settle_orders k vp vkey store pub proof ops)
            = store) := by
  refine ⟨?_, ?_, ?_, ?_⟩
  · unfold settlement_solana_program.settle_orders
    rw [hvp1, if_pos rfl]
  · intro hlt
    unfold settlement_solana_program.settle_orders
    rw [hvp1, if_pos rfl, if_neg (by omega)]
    rfl
  · unfold bankai_solana.settle_orders
    rw [hvp2, if_pos rfl]
  · intro hlt
    unfold bankai_solana.settle_orders
    rw [hvp2, if_pos rfl, if_neg (by omega)]
    rfl

theorem settle_public_input_length_witness :
    settlement_solana_program.settle_orders kTest vpTrue
        { vkey_hash := [], orders_pending := [], orders_settled := [] }
        (List.replicate 39 0) [] []
      = Except.error SettlementError.InvalidPublicInputs
    ∧ committed { vkey_hash := [], orders_pending := [], orders_settled := [] }
        (settlement_solana_program.settle_orders kTest vpTrue
          { vkey_hash := [], orders_pending := [], orders_settled := [] }
          (List.replicate 39 0) [] [])
      = { vkey_hash := [], orders_pending := [], orders_settled := [] }
    ∧ bankai_solana.settle_orders kTest vpTrue [] [] (List.replicate 39 0) [] []
      = Except.ok ([] : bankai_solana.OrderStore) := by
  have H := settle_public_input_length kTest vpTrue []
    { vkey_hash := [], orders_pending := [], orders_settled := [] } []
    (List.replicate 39 0) [] [] rfl rfl
  refine ⟨?_, H.2.1 (by decide), ?_⟩
  · rw [H.1, if_neg (by decide)]
  · rw [H.2.2.1, if_pos (by decide)]
    rfl

/-- A hash absent from a list has no position in it. -/
theorem position_eq_none (l : List Bytes) (h : Bytes) (hmem : h ∉ l) :
    settlement_solana_program.position l h = none := by
  induction l with
  | nil => rfl
  | cons x rest ih =>
      simp only [List.mem_cons, not_or] at hmem
      have hx : ¬ x = h := fun hxe => hmem.1 hxe.symm
      simp [settlement_solana_program.position, hx, ih hmem.2]

/-- Claim C8: a reset is per-hash tolerant of absent records. The list-based
`reset_orders` always returns Ok, and its per-hash step is the identity on
a hash absent from `orders_settled`; the bankai `reset_orders` treats a hash
with no order-status record as a no-op and continues with the remaining
hashes instead of erroring. -/
theorem reset_tolerates_absent (s : settlement_solana_program.SettlementState)
    (hashes : List Bytes) (store : bankai_solana.OrderStore) (h : Bytes)
    (rest : List Bytes)
    (h1 : h ∉ s.orders_settled) (h2 : bankai_solana.lookupRec store h = none) :
    (∃ s2, settlement_solana_program.reset_orders s hashes = Except.ok s2)
      ∧ settlement_solana_program.reset_step s h = s
      ∧ bankai_solana.reset_orders store (h :: rest)
        = bankai_solana.reset_orders store rest := by
  refine ⟨⟨_, rfl⟩, ?_, ?_⟩
  · unfold settlement_solana_program.reset_step
    rw [position_eq_none _ _ h1]
  · show (match bankai_solana.reset_step store h with
      | Except.ok store2 => bankai_solana.reset_orders store2 rest
      | Except.error e => Except.error e) = bankai_solana.reset_orders store rest
    unfold bankai_solana.reset_step
    rw [h2]

theorem reset_tolerates_absent_witness :
    (∃ s2, settlement_solana_program.reset_orders
        { vkey_hash := [], orders_pending := [], orders_settled := [] } [[7]]
      = Except.ok s2)
      ∧ settlement_solana_program.reset_step
          { vkey_hash := [], orders_pending := [], orders_settled := [] } [7]
        = { vkey_hash := [], orders_pending := [], orders_settled := [] }
      ∧ bankai_solana.reset_orders ([] : bankai_solana.OrderStore) [[7]]
        = bankai_solana.reset_orders ([] : bankai_solana.OrderStore) [] :=
  reset_tolerates_absent
    { vkey_hash := [], orders_pending := [], orders_settled := [] } [[7]] [] [7] []
    (by decide) rfl

end Settlement
